import Mathlib

/-!
Verification of the Tidal-Media-Downloader media acquisition pipeline.

The Python sources under `src/tidal_dl/` are shallowly embedded here:
pure string manipulation becomes functions on `List Char`, the download
pipeline becomes a function from an explicit context of step outcomes to
a trace of filesystem events plus the value returned to the caller, and
the `Settings` (de)serialization becomes functions between a `Settings`
structure and an insertion-ordered association-list model of Python
dicts.
-/

namespace TidalDl

/-! ## Path sanitisation (`util.replace_limit_char`, `path_builder.__fixPath__`) -/

/-- The filesystem-unsafe characters listed in `util.replace_limit_char`. -/
def limitedChars : List Char :=
  [':', '/', '?', '<', '>', '|', '\\', '*', '"']

/-- Python `s.replace(c, rep)` for a single-character needle `c`:
every occurrence of `c` is replaced by the string `rep`. -/
def replaceChar (c : Char) (rep : List Char) : List Char → List Char
  | [] => []
  | x :: xs =>
    if x = c then rep ++ replaceChar c rep xs else x :: replaceChar c rep xs

/-- Python `s.rstrip(c)` for a one-character strip set: remove the
trailing run of `c`. -/
def stripTrailing (c : Char) (s : List Char) : List Char :=
  (s.reverse.dropWhile (· = c)).reverse

/-- Python `s.lstrip(c)` for a one-character strip set. -/
def stripLeading (c : Char) (s : List Char) : List Char :=
  s.dropWhile (· = c)

/-- Python `s.strip(c)` for a one-character strip set. -/
def stripBoth (c : Char) (s : List Char) : List Char :=
  stripLeading c (stripTrailing c s)

/-- `util.replace_limit_char(path, new_char)`: replace every unsafe
character by `newChar`, drop newlines and tabs, strip trailing dots,
then strip surrounding spaces. -/
def replaceLimitChar (path : List Char) (newChar : List Char) : List Char :=
  let s := limitedChars.foldl (fun acc c => replaceChar c newChar acc) path
  let s := replaceChar '\n' [] s
  let s := replaceChar '\t' [] s
  let s := stripTrailing '.' s
  stripBoth ' ' s

/-- `path_builder.__fixPath__`: sanitise with replacement `"-"`, then
strip surrounding whitespace (the sanitiser has already removed `'\n'`
and `'\t'`, so the final `.strip()` acts on spaces). -/
def fixPath (name : List Char) : List Char :=
  stripBoth ' ' (replaceLimitChar name ['-'])

/-! ## Download pipeline (`download_manager.py`) -/

/-- Python return values of the per-item download functions: most
return paths yield a `(success, message)` tuple, but the success path
of `downloadVideo` executes a bare `return True`. -/
inductive PyRet where
  | pair (ok : Bool) (msg : String)
  | single (ok : Bool)
deriving DecidableEq

/-- Whether a returned value is a `(success, message)` pair. -/
def PyRet.isPair : PyRet → Bool
  | .pair _ _ => true
  | .single _ => false

/-- Filesystem events of one pipeline run.  `transferDone` marks the
point at which the download tool reports success. -/
inductive FsEvent where
  | write (p : String)
  | rename (src dst : String)
  | remove (p : String)
  | transferDone
deriving DecidableEq

/-- Whether an event deposits bytes under path `q` (a direct write or a
rename whose destination is `q`). -/
def FsEvent.writesTo : FsEvent → String → Bool
  | .write p, q => p == q
  | .rename _ dst, q => dst == q
  | _, _ => false

/-- `_is_skip`: skip only when the skip-on-exists setting is enabled,
the local file is non-empty, and the local size is at least the remote
size.  File sizes are naturals, so the source's `curSize <= 0` test is
`curSize = 0`. -/
def isSkip (checkExist : Bool) (curSize netSize : Nat) : Bool :=
  if !checkExist then false
  else if curSize = 0 then false
  else netSize ≤ curSize

/-- Python `path.rsplit(".", 1)[0]`: everything before the last dot, or
the whole string when there is no dot. -/
def beforeLastDot (s : List Char) : List Char :=
  if '.' ∈ s then ((s.reverse.dropWhile (fun c => c ≠ '.')).drop 1).reverse
  else s

/-- The lyrics-file path `path.rsplit(".", 1)[0] + ".lrc"`. -/
def lrcPath (p : String) : String :=
  String.mk (beforeLastDot p.data) ++ ".lrc"

/-- The `fLaC` signature bytes checked by `_convert_flac_inplace`. -/
def flacMagic : List Nat := [0x66, 0x4C, 0x61, 0x43]

/-- Outcomes of the external steps of `_convert_flac_inplace`, plus the
file's contents.  `extracted` is the transcoder's stdout, `taggedBytes`
the contents after a successful tag/cover save. -/
structure RemuxCtx where
  fileBytes : List Nat
  readOk : Bool
  mp4ParseOk : Bool
  ffmpegOk : Bool
  extracted : List Nat
  tagSaveOk : Bool
  taggedBytes : List Nat
deriving DecidableEq

/-- Result of `_convert_flac_inplace`: the returned boolean, the file's
contents afterwards, and whether the external transcoder was invoked. -/
structure RemuxOut where
  ret : Bool
  bytes : List Nat
  ffmpegInvoked : Bool
deriving DecidableEq

/-- `_convert_flac_inplace`: reads the leading signature bytes; a file
already bearing the `fLaC` signature is a no-op success.  Otherwise the
MP4 tags are read, the audio is extracted by the external transcoder,
the extracted bytes are written back over the same file, and the tags
and cover art are re-applied.  Every exception is caught and turned
into a `False` return; a failure before the write-back leaves the file
unchanged, a failure after it leaves the extracted bytes in place.  The
file's name is accepted but never branched on. -/
def convertFlacInplace (_fileName : String) (c : RemuxCtx) : RemuxOut :=
  if c.readOk = false then ⟨false, c.fileBytes, false⟩
  else if c.fileBytes.take 4 = flacMagic then ⟨true, c.fileBytes, false⟩
  else if c.mp4ParseOk = false then ⟨false, c.fileBytes, false⟩
  else if c.ffmpegOk = false then ⟨false, c.fileBytes, true⟩
  else if c.tagSaveOk = false then ⟨false, c.extracted, true⟩
  else ⟨true, c.taggedBytes, true⟩

/-- Whether the in-place conversion reaches the write-back step (and
hence writes to the file). -/
def remuxWrites (c : RemuxCtx) : Bool :=
  c.readOk && !(decide (c.fileBytes.take 4 = flacMagic)) &&
    c.mp4ParseOk && c.ffmpegOk

/-- Context of one `downloadTrack` run: settings, sizes reported by the
local and remote size probes, the stream descriptor's encryption flag,
and the outcomes of the external collaborators (stream resolution, the
aigpy `DownloadTool`, the remux steps). -/
structure TrackCtx where
  path : String
  checkExist : Bool
  verbose : Bool
  lyricFile : Bool
  curSize : Nat
  netSize : Nat
  encrypted : Bool
  streamOk : Bool
  excMsg : String
  toolOk : Bool
  toolErr : String
  convertEligible : Bool
  remux : RemuxCtx

/-- Filesystem events of the in-place FLAC conversion step of
`downloadTrack` (a write over the track's final path when the
conversion is eligible and reaches the write-back). -/
def convertEvents (c : TrackCtx) : List FsEvent :=
  if c.convertEligible && remuxWrites c.remux then [.write c.path] else []

/-- Trace-level embedding of `downloadTrack`.  The `DownloadTool` is
invoked on `path + ".part"` (modelled from the spec: the segmented
downloader materialises bytes only under its target path); on success
`_decrypt_if_needed` either renames the part file onto the final path
(no encryption key) or writes the decrypted bytes to the final path and
removes the part file.  Metadata tagging, the optional lyrics file and
the optional FLAC conversion follow; their failures are caught and do
not affect the returned value.  In the skip branch nothing is
downloaded, and metadata is re-applied only in verbose mode. -/
def downloadTrack (c : TrackCtx) : List FsEvent × PyRet :=
  if c.streamOk = false then
    ([], .pair false c.excMsg)
  else if isSkip c.checkExist c.curSize c.netSize then
    let meta :=
      if c.verbose then
        (if c.lyricFile then [FsEvent.write (lrcPath c.path)] else []) ++
          [FsEvent.write c.path]
      else []
    (meta ++ convertEvents c, .pair true "")
  else
    let dl := [FsEvent.write (c.path ++ ".part")]
    if c.toolOk = false then
      (dl, .pair false c.toolErr)
    else
      let handoff :=
        if c.encrypted then
          [FsEvent.write c.path, FsEvent.remove (c.path ++ ".part")]
        else [FsEvent.rename (c.path ++ ".part") c.path]
      let meta :=
        (if c.lyricFile then [FsEvent.write (lrcPath c.path)] else []) ++
          [FsEvent.write c.path]
      (dl ++ [FsEvent.transferDone] ++ handoff ++ meta ++ convertEvents c,
        .pair true "")

/-- Context of one `downloadVideo` run. -/
structure VideoCtx where
  path : String
  streamOk : Bool
  excMsg : String
  m3u8Ok : Bool
  tsUrls : List String
  dlOk : Bool
  dlMsg : String

/-- Trace-level embedding of `downloadVideo`: resolve the stream and
path, fetch the manifest, parse it to the list of segment URLs, bail
out with `(False, "GetTsUrls failed.")` when the list is empty, and
otherwise hand the URLs to the segment assembler.  The assembler is
modelled from the spec: on success the assembled bytes are written
under the destination path; on failure no file is left under the final
name.  On success the source executes a bare `return True`; every
failure path returns a `(False, message)` pair. -/
def downloadVideo (c : VideoCtx) : List FsEvent × PyRet :=
  if c.streamOk = false then ([], .pair false c.excMsg)
  else if c.m3u8Ok = false then ([], .pair false "GetM3u8 failed.")
  else if c.tsUrls.length = 0 then ([], .pair false "GetTsUrls failed.")
  else if c.dlOk then ([.write c.path], .single true)
  else ([], .pair false c.dlMsg)

/-- `downloadTracks`, album resolution per item: when the caller passes
no album, `__getAlbum__` is called for every track (there is no cache);
the result is the ordered list of collaborator-API `getAlbum` calls,
identified by the album id of each track. -/
def downloadTracksAlbumCalls (albumArg : Option Nat) (albumOf : Nat → Nat) :
    List Nat → List Nat
  | [] => []
  | t :: ts =>
    (match albumArg with
      | some _ => []
      | none => [albumOf t]) ++ downloadTracksAlbumCalls albumArg albumOf ts

/-- Cover downloads triggered by `__getAlbum__`: one per `getAlbum`
call when covers are saved and the playlist folder is not used. -/
def coverDownloads (saveCovers usePlaylistFolder : Bool)
    (calls : List Nat) : List Nat :=
  if saveCovers && !usePlaylistFolder then calls else []

/-- The sequential loop of `downloadTracks`: every item is passed to
`downloadTrack` (whose outcome is given by the `result` oracle) and the
per-item result is discarded — the loop never aborts on a failed
item. -/
def processTracks (result : Nat → Bool × String) : List Nat → List (Bool × String)
  | [] => []
  | t :: ts => result t :: processTracks result ts

/-- `downloadTracks` as seen by its caller: the internal per-item
results, paired with the value the function returns — Python's
implicit `None`, carrying no per-item information. -/
def downloadTracksRun (result : Nat → Bool × String) (tracks : List Nat) :
    List (Bool × String) × Option (List (Bool × String)) :=
  (processTracks result tracks, none)

/-- Failure count of a list of `(success, message)` results. -/
def countFailures (rs : List (Bool × String)) : Nat :=
  (rs.filter (fun r => r.1 = false)).length

/-! ## Settings (de)serialization (`config.py`) -/

/-- Audio quality tiers (`enums.AudioQuality`, members as listed by the
CLI choices and `config.py`). -/
inductive AudioQuality where
  | Normal
  | High
  | HiFi
  | Master
  | Max
deriving DecidableEq

/-- Video quality tiers (`enums.VideoQuality`). -/
inductive VideoQuality where
  | P240
  | P360
  | P480
  | P720
  | P1080
deriving DecidableEq

/-- Python `enum.name` for `AudioQuality`. -/
def aqName : AudioQuality → String
  | .Normal => "Normal"
  | .High => "High"
  | .HiFi => "HiFi"
  | .Master => "Master"
  | .Max => "Max"

/-- Python `enum.name` for `VideoQuality`. -/
def vqName : VideoQuality → String
  | .P240 => "P240"
  | .P360 => "P360"
  | .P480 => "P480"
  | .P720 => "P720"
  | .P1080 => "P1080"

/-- `Settings._get_audio_quality`: name lookup with fallback `Normal`. -/
def audioQualityOfName (s : String) : AudioQuality :=
  if s = "Normal" then .Normal
  else if s = "High" then .High
  else if s = "HiFi" then .HiFi
  else if s = "Master" then .Master
  else if s = "Max" then .Max
  else .Normal

/-- `Settings._get_video_quality`: name lookup with fallback `P360`. -/
def videoQualityOfName (s : String) : VideoQuality :=
  if s = "P240" then .P240
  else if s = "P360" then .P360
  else if s = "P480" then .P480
  else if s = "P720" then .P720
  else if s = "P1080" then .P1080
  else .P360

/-- `PathFormats` dataclass with its default templates. -/
structure PathFormats where
  album_folder : String := "{ArtistName}/{Flag} {AlbumTitle} [{AlbumID}] [{AlbumYear}]"
  playlist_folder : String := "Playlist/{PlaylistName} [{PlaylistUUID}]"
  track_file : String := "{TrackNumber} - {ArtistName} - {TrackTitle}{ExplicitFlag}"
  video_file : String := "{VideoNumber} - {ArtistName} - {VideoTitle}{ExplicitFlag}"
deriving DecidableEq

/-- The `Settings` dataclass with its field defaults. -/
structure Settings where
  download_path : String := "./download/"
  audio_quality : AudioQuality := .Normal
  video_quality : VideoQuality := .P360
  check_exist : Bool := true
  include_ep : Bool := true
  save_covers : Bool := true
  lyric_file : Bool := false
  save_album_info : Bool := false
  download_videos : Bool := true
  multi_thread : Bool := false
  download_delay : Bool := true
  use_playlist_folder : Bool := true
  show_progress : Bool := true
  show_track_info : Bool := true
  convert_flac : Bool := true
  language : Int := 0
  api_key_index : Int := 0
  verbose : Bool := false
  path_formats : PathFormats := {}
deriving DecidableEq

/-- JSON-style values stored in a settings dictionary. -/
inductive JVal where
  | str (s : String)
  | bool (b : Bool)
  | int (n : Int)
  | dict (d : List (String × JVal))

/-- Insertion-ordered dictionary, modelling a Python `dict`. -/
abbrev Dict := List (String × JVal)

/-- Key lookup in a dictionary. -/
def dget : Dict → String → Option JVal
  | [], _ => none
  | (k, v) :: d, q => if k = q then some v else dget d q

/-- Python `d[k] = v`: an existing key keeps its position and gets the
new value, a new key is appended. -/
def dinsert (d : Dict) (k : String) (v : JVal) : Dict :=
  if (dget d k).isSome then
    d.map (fun kv => if kv.1 = k then (k, v) else kv)
  else d ++ [(k, v)]

/-- Python `d.pop(k)`. -/
def dremove (d : Dict) (k : String) : Dict :=
  d.filter (fun kv => kv.1 ≠ k)

/-- The legacy camelCase key-rename table of `Settings.from_dict`. -/
def legacyRename (k : String) : String :=
  if k = "downloadPath" then "download_path"
  else if k = "audioQuality" then "audio_quality"
  else if k = "videoQuality" then "video_quality"
  else if k = "checkExist" then "check_exist"
  else if k = "includeEP" then "include_ep"
  else if k = "saveCovers" then "save_covers"
  else if k = "lyricFile" then "lyric_file"
  else if k = "apiKeyIndex" then "api_key_index"
  else if k = "showProgress" then "show_progress"
  else if k = "showTrackInfo" then "show_track_info"
  else if k = "saveAlbumInfo" then "save_album_info"
  else if k = "downloadVideos" then "download_videos"
  else if k = "multiThread" then "multi_thread"
  else if k = "downloadDelay" then "download_delay"
  else if k = "usePlaylistFolder" then "use_playlist_folder"
  else if k = "convertFlac" then "convert_flac"
  else if k = "albumFolderFormat" then "album_folder"
  else if k = "playlistFolderFormat" then "playlist_folder"
  else if k = "trackFileFormat" then "track_file"
  else if k = "videoFileFormat" then "video_file"
  else k

/-- The `normalized` dict of `Settings.from_dict`: every incoming key
is mapped through the rename table, later duplicates overwriting
earlier entries as in a Python dict. -/
def normalize (d : Dict) : Dict :=
  d.foldl (fun acc kv => dinsert acc (legacyRename kv.1) kv.2) []

/-- The four path-format keys extracted by `Settings.from_dict`. -/
def pathFormatKeys : List String :=
  ["album_folder", "playlist_folder", "track_file", "video_file"]

/-- The dict comprehension popping the path-format keys out of
`normalized`: returns the extracted sub-dict and the remainder. -/
def extractPathFormats (normalized : Dict) : Dict × Dict :=
  pathFormatKeys.foldl
    (fun acc k =>
      match dget acc.2 k with
      | some v => (dinsert acc.1 k v, dremove acc.2 k)
      | none => acc)
    ([], normalized)

/-- The field names of the `Settings` dataclass. -/
def validFields : List String :=
  ["download_path", "audio_quality", "video_quality", "check_exist",
   "include_ep", "save_covers", "lyric_file", "save_album_info",
   "download_videos", "multi_thread", "download_delay",
   "use_playlist_folder", "show_progress", "show_track_info",
   "convert_flac", "language", "api_key_index", "verbose", "path_formats"]

/-- String-typed field extraction with the dataclass default. -/
def getStrD (d : Dict) (k dflt : String) : String :=
  match dget d k with
  | some (.str s) => s
  | _ => dflt

/-- Bool-typed field extraction with the dataclass default. -/
def getBoolD (d : Dict) (k : String) (dflt : Bool) : Bool :=
  match dget d k with
  | some (.bool b) => b
  | _ => dflt

/-- Int-typed field extraction with the dataclass default. -/
def getIntD (d : Dict) (k : String) (dflt : Int) : Int :=
  match dget d k with
  | some (.int n) => n
  | _ => dflt

/-- `PathFormats(**d)` on the extracted sub-dict (missing keys fall
back to the dataclass defaults). -/
def pathFormatsOfDict (pd : Dict) : PathFormats :=
  { album_folder := getStrD pd "album_folder" ({} : PathFormats).album_folder,
    playlist_folder := getStrD pd "playlist_folder" ({} : PathFormats).playlist_folder,
    track_file := getStrD pd "track_file" ({} : PathFormats).track_file,
    video_file := getStrD pd "video_file" ({} : PathFormats).video_file }

/-- `Settings.to_dict`: `asdict` in field-declaration order, recursing
into `path_formats` as a nested dict, then the two quality enums are
overwritten with their `.name` strings. -/
def Settings.toDict (s : Settings) : Dict :=
  [("download_path", .str s.download_path),
   ("audio_quality", .str (aqName s.audio_quality)),
   ("video_quality", .str (vqName s.video_quality)),
   ("check_exist", .bool s.check_exist),
   ("include_ep", .bool s.include_ep),
   ("save_covers", .bool s.save_covers),
   ("lyric_file", .bool s.lyric_file),
   ("save_album_info", .bool s.save_album_info),
   ("download_videos", .bool s.download_videos),
   ("multi_thread", .bool s.multi_thread),
   ("download_delay", .bool s.download_delay),
   ("use_playlist_folder", .bool s.use_playlist_folder),
   ("show_progress", .bool s.show_progress),
   ("show_track_info", .bool s.show_track_info),
   ("convert_flac", .bool s.convert_flac),
   ("language", .int s.language),
   ("api_key_index", .int s.api_key_index),
   ("verbose", .bool s.verbose),
   ("path_formats", .dict
     [("album_folder", .str s.path_formats.album_folder),
      ("playlist_folder", .str s.path_formats.playlist_folder),
      ("track_file", .str s.path_formats.track_file),
      ("video_file", .str s.path_formats.video_file)])]

/-- The dictionary handed to the dataclass constructor by
`Settings.from_dict`: rename legacy keys, pop the path-format keys into
a nested `path_formats` dict (inserted only when non-empty), and keep
only valid field names. -/
def prunedDict (d : Dict) : Dict :=
  (if (extractPathFormats (normalize d)).1.isEmpty
   then (extractPathFormats (normalize d)).2
   else dinsert (extractPathFormats (normalize d)).2 "path_formats"
          (.dict (extractPathFormats (normalize d)).1)).filter
    (fun kv => decide (kv.1 ∈ validFields))

/-- `cls(**kwargs)` followed by `__post_init__`: every field is taken
from the dictionary (decoded at its dataclass type, the shape
`to_dict` produces) or falls back to its dataclass default; string
quality values go through the enum-name lookup, and a `path_formats`
dict through `PathFormats(**d)`. -/
def settingsOfFields (fd : Dict) : Settings :=
  { download_path := getStrD fd "download_path" "./download/",
    audio_quality :=
      match dget fd "audio_quality" with
      | some (.str s) => audioQualityOfName s
      | _ => .Normal,
    video_quality :=
      match dget fd "video_quality" with
      | some (.str s) => videoQualityOfName s
      | _ => .P360,
    check_exist := getBoolD fd "check_exist" true,
    include_ep := getBoolD fd "include_ep" true,
    save_covers := getBoolD fd "save_covers" true,
    lyric_file := getBoolD fd "lyric_file" false,
    save_album_info := getBoolD fd "save_album_info" false,
    download_videos := getBoolD fd "download_videos" true,
    multi_thread := getBoolD fd "multi_thread" false,
    download_delay := getBoolD fd "download_delay" true,
    use_playlist_folder := getBoolD fd "use_playlist_folder" true,
    show_progress := getBoolD fd "show_progress" true,
    show_track_info := getBoolD fd "show_track_info" true,
    convert_flac := getBoolD fd "convert_flac" true,
    language := getIntD fd "language" 0,
    api_key_index := getIntD fd "api_key_index" 0,
    verbose := getBoolD fd "verbose" false,
    path_formats :=
      match dget fd "path_formats" with
      | some (.dict pd) => pathFormatsOfDict pd
      | some _ => {}
      | none => {} }

/-- `Settings.from_dict` followed by `__post_init__`. -/
def Settings.fromDict (d : Dict) : Settings :=
  settingsOfFields (prunedDict d)

/-! ### Lemmas about the sanitiser -/

theorem mem_replaceChar {x c : Char} {rep s : List Char}
    (hx : x ∈ replaceChar c rep s) : x ∈ rep ∨ (x ∈ s ∧ x ≠ c) := by
  induction s with
  | nil => simp [replaceChar] at hx
  | cons y ys ih =>
    by_cases hy : y = c
    · simp [replaceChar, hy] at hx
      rcases hx with hx | hx
      · exact Or.inl hx
      · rcases ih hx with h | ⟨h1, h2⟩
        · exact Or.inl h
        · exact Or.inr ⟨List.mem_cons_of_mem _ h1, h2⟩
    · simp [replaceChar, hy] at hx
      rcases hx with hx | hx
      · subst hx
        exact Or.inr ⟨List.mem_cons_self _ _, hy⟩
      · rcases ih hx with h | ⟨h1, h2⟩
        · exact Or.inl h
        · exact Or.inr ⟨List.mem_cons_of_mem _ h1, h2⟩

theorem mem_replaceChar_of_mem {x c : Char} {rep s : List Char}
    (hx : x ∈ s) (hne : x ≠ c) : x ∈ replaceChar c rep s := by
  induction s with
  | nil => simp at hx
  | cons y ys ih =>
    rcases List.mem_cons.mp hx with h | h
    · subst h
      simp [replaceChar, hne]
    · by_cases hy : y = c
      · simp [replaceChar, hy]
        exact Or.inr (ih h)
      · simp [replaceChar, hy]
        exact Or.inr (ih h)

theorem mem_foldl_replace {x : Char} {rep : List Char} :
    ∀ (L : List Char) (s : List Char),
      x ∈ L.foldl (fun acc c => replaceChar c rep acc) s →
      x ∈ rep ∨ (x ∈ s ∧ x ∉ L) := by
  intro L
  induction L with
  | nil => intro s hx; exact Or.inr ⟨hx, by simp⟩
  | cons c cs ih =>
    intro s hx
    have hx' := ih (replaceChar c rep s) hx
    rcases hx' with h | ⟨h1, h2⟩
    · exact Or.inl h
    · rcases mem_replaceChar h1 with h | ⟨h3, h4⟩
      · exact Or.inl h
      · refine Or.inr ⟨h3, ?_⟩
        simp only [List.mem_cons, not_or]
        exact ⟨h4, h2⟩

theorem mem_foldl_replace_of_mem {x : Char} {rep : List Char} :
    ∀ (L : List Char) (s : List Char),
      x ∈ s → x ∉ L → x ∈ L.foldl (fun acc c => replaceChar c rep acc) s := by
  intro L
  induction L with
  | nil => intro s hx _; exact hx
  | cons c cs ih =>
    intro s hx hnl
    simp only [List.mem_cons, not_or] at hnl
    exact ih (replaceChar c rep s) (mem_replaceChar_of_mem hx hnl.1) hnl.2

theorem mem_of_mem_stripTrailing {x c : Char} {s : List Char}
    (hx : x ∈ stripTrailing c s) : x ∈ s := by
  unfold stripTrailing at hx
  have h : x ∈ s.reverse.dropWhile (· = c) := List.mem_reverse.mp hx
  exact List.mem_reverse.mp ((List.dropWhile_sublist _).subset h)

theorem mem_stripTrailing_of_mem {x c : Char} {s : List Char}
    (hx : x ∈ s) (hne : x ≠ c) : x ∈ stripTrailing c s := by
  unfold stripTrailing
  rw [List.mem_reverse]
  have hrev : x ∈ s.reverse := List.mem_reverse.mpr hx
  rw [← List.takeWhile_append_dropWhile (p := (· = c)) (l := s.reverse)] at hrev
  rcases List.mem_append.mp hrev with h | h
  · have hp := List.mem_takeWhile_imp h
    simp at hp
    exact absurd hp hne
  · exact h

theorem mem_of_mem_stripLeading {x c : Char} {s : List Char}
    (hx : x ∈ stripLeading c s) : x ∈ s :=
  (List.dropWhile_sublist _).subset hx

theorem mem_stripLeading_of_mem {x c : Char} {s : List Char}
    (hx : x ∈ s) (hne : x ≠ c) : x ∈ stripLeading c s := by
  unfold stripLeading
  rw [← List.takeWhile_append_dropWhile (p := (· = c)) (l := s)] at hx
  rcases List.mem_append.mp hx with h | h
  · have hp := List.mem_takeWhile_imp h
    simp at hp
    exact absurd hp hne
  · exact h

theorem mem_of_mem_stripBoth {x c : Char} {s : List Char}
    (hx : x ∈ stripBoth c s) : x ∈ s :=
  mem_of_mem_stripTrailing (mem_of_mem_stripLeading hx)

theorem mem_stripBoth_of_mem {x c : Char} {s : List Char}
    (hx : x ∈ s) (hne : x ≠ c) : x ∈ stripBoth c s :=
  mem_stripLeading_of_mem (mem_stripTrailing_of_mem hx hne) hne

/-- Every character of the sanitiser's output is either a character of
the replacement string or a character of the input. -/
theorem mem_replaceLimitChar {x : Char} {path newChar : List Char}
    (hx : x ∈ replaceLimitChar path newChar) :
    x ∈ newChar ∨ (x ∈ path ∧ x ∉ limitedChars) := by
  unfold replaceLimitChar at hx
  have h1 := mem_of_mem_stripBoth hx
  have h2 := mem_of_mem_stripTrailing h1
  rcases mem_replaceChar h2 with h | ⟨h3, _⟩
  · simp at h
  rcases mem_replaceChar h3 with h | ⟨h4, _⟩
  · simp at h
  exact mem_foldl_replace limitedChars path h4

/-- An unsafe character never survives into the sanitiser's output,
provided the replacement string contains no unsafe character. -/
theorem replaceLimitChar_no_unsafe {x : Char} {path newChar : List Char}
    (hlim : x ∈ limitedChars) (hrep : x ∉ newChar) :
    x ∉ replaceLimitChar path newChar := by
  intro hx
  rcases mem_replaceLimitChar hx with h | ⟨_, h2⟩
  · exact hrep h
  · exact h2 hlim

/-- Replacing the occurrences of `x` by `"-"` puts `'-'` into the
string whenever `x` occurred. -/
theorem dash_mem_replaceChar_self {x : Char} {s : List Char}
    (hx : x ∈ s) : '-' ∈ replaceChar x ['-'] s := by
  induction s with
  | nil => simp at hx
  | cons y ys ih =>
    by_cases hy : y = x
    · simp [replaceChar, hy]
    · rcases List.mem_cons.mp hx with h | h
      · exact absurd h.symm hy
      · simp [replaceChar, hy]
        exact Or.inr (ih h)

/-- `replaceChar c "-"` never removes an existing `'-'`. -/
theorem dash_mem_replaceChar {c : Char} {s : List Char}
    (hx : '-' ∈ s) : '-' ∈ replaceChar c ['-'] s := by
  induction s with
  | nil => simp at hx
  | cons y ys ih =>
    by_cases hy : y = c
    · simp [replaceChar, hy]
    · rcases List.mem_cons.mp hx with h | h
      · simp [replaceChar, hy]
        exact Or.inl h
      · simp [replaceChar, hy]
        exact Or.inr (ih h)

theorem dash_mem_foldl_replace {L : List Char} :
    ∀ {s : List Char}, '-' ∈ s →
      '-' ∈ L.foldl (fun acc c => replaceChar c ['-'] acc) s := by
  induction L with
  | nil => intro s hx; exact hx
  | cons c cs ih => intro s hx; exact ih (dash_mem_replaceChar hx)

theorem head?_dropWhile_false {p : Char → Bool} {l : List Char} {a : Char}
    (h : (l.dropWhile p).head? = some a) : p a = false := by
  induction l with
  | nil => simp [List.dropWhile] at h
  | cons x xs ih =>
    rw [List.dropWhile_cons] at h
    by_cases hx : p x = true
    · rw [if_pos hx] at h
      exact ih h
    · rw [if_neg hx] at h
      simp at h
      subst h
      exact Bool.eq_false_iff.mpr hx

theorem getLast?_stripTrailing_ne {c a : Char} {s : List Char}
    (h : (stripTrailing c s).getLast? = some a) : a ≠ c := by
  unfold stripTrailing at h
  rw [List.getLast?_reverse] at h
  have hp := head?_dropWhile_false h
  simpa using hp

theorem getLast?_stripLeading {c a : Char} {s : List Char}
    (h : (stripLeading c s).getLast? = some a) : s.getLast? = some a := by
  unfold stripLeading at h
  have ht : s.takeWhile (· = c) ++ s.dropWhile (· = c) = s :=
    List.takeWhile_append_dropWhile _ s
  rw [← ht, List.getLast?_append_of_ne_nil]
  · exact h
  · intro hnil
    rw [hnil] at h
    simp at h

theorem stripBoth_getLast?_ne {c a : Char} {s : List Char}
    (h : (stripBoth c s).getLast? = some a) : a ≠ c :=
  getLast?_stripTrailing_ne (getLast?_stripLeading h)

/-- The sanitiser's output never ends in a space (the final operation
is a `strip(" ")`). -/
theorem replaceLimitChar_no_trailing_space {path newChar : List Char} {a : Char}
    (h : (replaceLimitChar path newChar).getLast? = some a) : a ≠ ' ' := by
  unfold replaceLimitChar at h
  exact stripBoth_getLast?_ne h

/-- If the input contains an unsafe character, the output of
`replace_limit_char` with replacement `"-"` contains the replacement
character. -/
theorem replaceLimitChar_dash_mem {x : Char} {path : List Char}
    (hlim : x ∈ limitedChars) (hx : x ∈ path) :
    '-' ∈ replaceLimitChar path ['-'] := by
  unfold replaceLimitChar
  have hnd : limitedChars.Nodup := by decide
  rcases List.append_of_mem hlim with ⟨L₁, L₂, hL⟩
  have hxnotL₁ : x ∉ L₁ := by
    intro hmem
    rw [hL, List.nodup_append] at hnd
    exact hnd.2.2 hmem (List.mem_cons_self _ _)
  have hmem : '-' ∈ limitedChars.foldl
      (fun acc c => replaceChar c ['-'] acc) path := by
    rw [hL, List.foldl_append]
    have hx1 : x ∈ L₁.foldl (fun acc c => replaceChar c ['-'] acc) path :=
      mem_foldl_replace_of_mem L₁ path hx hxnotL₁
    simpa using dash_mem_foldl_replace (dash_mem_replaceChar_self hx1)
  have h1 : '-' ∈ replaceChar '\n' ([] : List Char)
      (limitedChars.foldl (fun acc c => replaceChar c ['-'] acc) path) :=
    mem_replaceChar_of_mem hmem (by decide)
  have h2 := @mem_replaceChar_of_mem '-' '\t' ([] : List Char) _ h1 (by decide)
  have h3 := mem_stripTrailing_of_mem (c := '.') h2 (by decide)
  exact mem_stripBoth_of_mem h3 (by decide)

/-- Claim C8, counterexample: for the substituted value `"a. "` the
sanitiser (with the configured replacement `"-"`) returns `"a."`, which
still ends in a dot — the trailing dot survives because trailing dots
are stripped before the trailing spaces that hid it. -/
theorem claim_C8_counterexample :
    replaceLimitChar ['a', '.', ' '] ['-'] = ['a', '.'] ∧
    (replaceLimitChar ['a', '.', ' '] ['-']).getLast? = some '.' := by
  decide

/-- Claim C8 (amended): for every substituted value, the sanitised
value (with the configured replacement `"-"` of `__fixPath__`) never
contains any of the filesystem-unsafe characters; if the value
contained an unsafe character the output contains the replacement
character; and the output never ends in a space.  (As shown by the
counterexample, the output may still end in a dot when a trailing dot
was followed by trailing spaces.) -/
theorem claim_C8_sanitizer (value : List Char) :
    (∀ c ∈ limitedChars, c ∉ replaceLimitChar value ['-']) ∧
    (∀ c ∈ limitedChars, c ∈ value → '-' ∈ replaceLimitChar value ['-']) ∧
    (∀ a, (replaceLimitChar value ['-']).getLast? = some a → a ≠ ' ') := by
  refine ⟨?_, ?_, ?_⟩
  · intro c hc
    refine replaceLimitChar_no_unsafe hc ?_
    intro hmem
    have hcd : c = '-' := by simpa using hmem
    subst hcd
    revert hc
    decide
  · intro c hc hcv
    exact replaceLimitChar_dash_mem hc hcv
  · intro a h
    exact replaceLimitChar_no_trailing_space h

/-- Claim C8, witness: the amended theorem evaluated on the concrete
values `":a"` and `"a. "`. -/
theorem claim_C8_witness :
    ':' ∉ replaceLimitChar [':', 'a'] ['-'] ∧
    '-' ∈ replaceLimitChar [':', 'a'] ['-'] ∧
    ('.' : Char) ≠ ' ' :=
  ⟨(claim_C8_sanitizer [':', 'a']).1 ':' (by decide),
   (claim_C8_sanitizer [':', 'a']).2.1 ':' (by decide) (by decide),
   (claim_C8_sanitizer ['a', '.', ' ']).2.2 '.' (by decide)⟩

/-! ### Path helper facts -/

theorem part_ne_self (p : String) : p ++ ".part" ≠ p := by
  intro h
  have h2 := congrArg String.length h
  rw [String.length_append] at h2
  have h3 : (".part" : String).length = 5 := by decide
  omega

theorem beq_part_self (p : String) : ((p ++ ".part") == p) = false := by
  rw [beq_eq_false_iff_ne]
  exact part_ne_self p

theorem lrc_ne_part (p : String) : lrcPath p ≠ p ++ ".part" := by
  intro h
  have hd := congrArg String.data h
  have hl : (lrcPath p).data = beforeLastDot p.data ++ ".lrc".data := by
    unfold lrcPath
    rw [String.data_append]
  have hr : (p ++ ".part").data = p.data ++ ".part".data := String.data_append _ _
  rw [hl, hr] at hd
  have h1 : (beforeLastDot p.data ++ ".lrc".data).getLast? = some 'c' := by
    rw [List.getLast?_append_of_ne_nil _ (by decide)]
    decide
  have h2 : (p.data ++ ".part".data).getLast? = some 't' := by
    rw [List.getLast?_append_of_ne_nil _ (by decide)]
    decide
  rw [hd, h2] at h1
  exact absurd h1 (by decide)

/-! ### Claim C1: resume-skip logic -/

/-- Claim C1, counterexample: a zero-byte local file whose remote
length is also zero satisfies local size ≥ remote length with
skip-on-exists enabled, yet `_is_skip` returns `False` (the source
bails out on `curSize <= 0`), the transfer tool is invoked on the
`.part` path, and a failing transfer makes the fetch return failure
instead of the claimed immediate success. -/
theorem claim_C1_counterexample :
    let c : TrackCtx :=
      { path := "t.flac", checkExist := true, verbose := false,
        lyricFile := false, curSize := 0, netSize := 0, encrypted := false,
        streamOk := true, excMsg := "", toolOk := false,
        toolErr := "network error", convertEligible := false,
        remux := ⟨[], true, true, true, [], true, []⟩ }
    isSkip true 0 0 = false ∧
    (downloadTrack c).2 = .pair false "network error" ∧
    FsEvent.write ("t.flac" ++ ".part") ∈ (downloadTrack c).1 := by
  decide

/-- Claim C1 (amended): whenever skip-on-exists is enabled, the local
file is non-empty, and the local size is at least the remote content
length, `downloadTrack` returns success immediately — the transfer tool
never runs (no `transferDone`, no write to the `.part` path).  The
zero-byte case is excluded: `_is_skip` returns `False` for an empty
local file, so the download proceeds. -/
theorem claim_C1_skip (c : TrackCtx) (hs : c.streamOk = true)
    (hce : c.checkExist = true) (hpos : 0 < c.curSize)
    (hle : c.netSize ≤ c.curSize) :
    (downloadTrack c).2 = .pair true "" ∧
    FsEvent.transferDone ∉ (downloadTrack c).1 ∧
    FsEvent.write (c.path ++ ".part") ∉ (downloadTrack c).1 := by
  have hskip : isSkip c.checkExist c.curSize c.netSize = true := by
    unfold isSkip
    rw [hce]
    simp [Nat.pos_iff_ne_zero.mp hpos, hle]
  have hlrc := (lrc_ne_part c.path).symm
  have hpart := (part_ne_self c.path).symm
  unfold downloadTrack
  rw [hs, hskip]
  refine ⟨by simp, ?_, ?_⟩ <;>
    cases hv : c.verbose <;> cases hl : c.lyricFile <;>
      cases hcv : c.convertEligible && remuxWrites c.remux <;>
        simp [convertEvents, hcv, hlrc, hpart, Ne.symm hpart]

/-- Claim C1, witness: the amended theorem at a concrete context with a
7-byte local file and a 7-byte remote asset. -/
theorem claim_C1_skip_witness :
    let c : TrackCtx :=
      { path := "t.flac", checkExist := true, verbose := false,
        lyricFile := false, curSize := 7, netSize := 7, encrypted := false,
        streamOk := true, excMsg := "", toolOk := true, toolErr := "",
        convertEligible := false, remux := ⟨[], true, true, true, [], true, []⟩ }
    (downloadTrack c).2 = .pair true "" ∧
    FsEvent.transferDone ∉ (downloadTrack c).1 ∧
    FsEvent.write (c.path ++ ".part") ∉ (downloadTrack c).1 :=
  claim_C1_skip
    { path := "t.flac", checkExist := true, verbose := false,
      lyricFile := false, curSize := 7, netSize := 7, encrypted := false,
      streamOk := true, excMsg := "", toolOk := true, toolErr := "",
      convertEligible := false, remux := ⟨[], true, true, true, [], true, []⟩ }
    rfl rfl (by decide) (by decide)

/-! ### Claim C2: temporary-name isolation during the transfer -/

/-- Claim C2: during a real (non-skipped) download, every filesystem
event before the transfer-success point targets only the `.part` path,
never the final destination; on transfer failure the trace is exactly
the `.part` write and the call fails; on transfer success the first
event depositing bytes under the final name is the rename (plain
stream) or the decrypted write (encrypted stream). -/
theorem claim_C2_part_isolation (c : TrackCtx) (hs : c.streamOk = true)
    (hns : isSkip c.checkExist c.curSize c.netSize = false) :
    (∀ e ∈ (downloadTrack c).1.takeWhile (fun e => e ≠ FsEvent.transferDone),
        e.writesTo c.path = false) ∧
    (c.toolOk = false →
        (downloadTrack c).1 = [FsEvent.write (c.path ++ ".part")] ∧
        (downloadTrack c).2 = .pair false c.toolErr) ∧
    (c.toolOk = true →
        (downloadTrack c).1.find? (fun e => e.writesTo c.path) =
          some (if c.encrypted then FsEvent.write c.path
                else FsEvent.rename (c.path ++ ".part") c.path)) := by
  unfold downloadTrack
  rw [hs, hns]
  simp only [Bool.true_eq_false, if_false]
  cases ht : c.toolOk with
  | false =>
    refine ⟨?_, fun _ => ⟨rfl, rfl⟩, fun h => by simp at h⟩
    intro e he
    simp [List.takeWhile] at he
    rw [he]
    simp [FsEvent.writesTo, beq_part_self]
  | true =>
    simp only [Bool.true_eq_false, if_false]
    refine ⟨?_, fun h => by simp at h, fun _ => ?_⟩
    · intro e he
      simp [List.takeWhile] at he
      rw [he]
      simp [FsEvent.writesTo, beq_part_self]
    · cases he : c.encrypted <;>
        simp [List.find?, FsEvent.writesTo, beq_part_self, he]

/-- Claim C2, witness: the theorem at a concrete unencrypted context
whose transfer succeeds. -/
theorem claim_C2_witness :
    let c : TrackCtx :=
      { path := "t.m4a", checkExist := false, verbose := false,
        lyricFile := false, curSize := 0, netSize := 9, encrypted := false,
        streamOk := true, excMsg := "", toolOk := true, toolErr := "",
        convertEligible := false, remux := ⟨[], true, true, true, [], true, []⟩ }
    (downloadTrack c).1.find? (fun e => e.writesTo c.path) =
      some (FsEvent.rename (c.path ++ ".part") c.path) := by
  have h := (claim_C2_part_isolation
    { path := "t.m4a", checkExist := false, verbose := false,
      lyricFile := false, curSize := 0, netSize := 9, encrypted := false,
      streamOk := true, excMsg := "", toolOk := true, toolErr := "",
      convertEligible := false, remux := ⟨[], true, true, true, [], true, []⟩ }
    rfl rfl).2.2 rfl
  simpa using h

/-! ### Claim C3: remux failure handling -/

/-- Claim C3, counterexample: when the tag/cover save fails after the
transcoder's output has been written back over the file, the original
bytes are gone — the file now holds the extracted audio data, so "any
step failure leaves the original file's bytes unchanged" is false. -/
theorem claim_C3_counterexample :
    convertFlacInplace "t.flac"
        ⟨[0, 0, 0, 24], true, true, true, [1, 2, 3], false, []⟩ =
      ⟨false, [1, 2, 3], true⟩ ∧
    ([1, 2, 3] : List Nat) ≠ [0, 0, 0, 24] := by
  decide

/-- Claim C3 (amended): a remux failure before the write-back step
(signature read, tag read, or transcoder failure) leaves the original
file's bytes unchanged and returns `False`; every remux failure is
non-fatal — the enclosing track download still returns success.  A
failure after the write-back (tag/cover save) instead leaves the file
overwritten with the extracted audio, as the counterexample shows. -/
theorem claim_C3_remux_nonfatal (n : String) (c : RemuxCtx) (tc : TrackCtx) :
    (c.readOk = false → convertFlacInplace n c = ⟨false, c.fileBytes, false⟩) ∧
    (¬ c.fileBytes.take 4 = flacMagic → c.readOk = true →
        c.mp4ParseOk = false →
        convertFlacInplace n c = ⟨false, c.fileBytes, false⟩) ∧
    (¬ c.fileBytes.take 4 = flacMagic → c.readOk = true →
        c.mp4ParseOk = true → c.ffmpegOk = false →
        convertFlacInplace n c = ⟨false, c.fileBytes, true⟩) ∧
    (tc.streamOk = true →
        (isSkip tc.checkExist tc.curSize tc.netSize = true ∨ tc.toolOk = true) →
        (downloadTrack tc).2 = .pair true "") := by
  refine ⟨?_, ?_, ?_, ?_⟩
  · intro h
    simp [convertFlacInplace, h]
  · intro hm hr hp
    simp [convertFlacInplace, hm, hr, hp]
  · intro hm hr hp hf
    simp [convertFlacInplace, hm, hr, hp, hf]
  · intro hs hok
    unfold downloadTrack
    rw [hs]
    rcases hok with h | h
    · rw [h]
      simp
    · by_cases hsk : isSkip tc.checkExist tc.curSize tc.netSize <;>
        simp [hsk, h]

/-- Claim C3, witness: the amended theorem at a concrete transcoder
failure (file bytes kept) and a concrete successful track download. -/
theorem claim_C3_witness :
    convertFlacInplace "t.flac" ⟨[0, 0, 0, 24], true, true, false, [9], true, []⟩ =
      ⟨false, [0, 0, 0, 24], true⟩ ∧
    (downloadTrack
        { path := "t.flac", checkExist := false, verbose := false,
          lyricFile := false, curSize := 0, netSize := 9, encrypted := false,
          streamOk := true, excMsg := "", toolOk := true, toolErr := "",
          convertEligible := true,
          remux := ⟨[0, 0, 0, 24], true, true, false, [9], true, []⟩ }).2 =
      .pair true "" :=
  ⟨(claim_C3_remux_nonfatal "t.flac"
      ⟨[0, 0, 0, 24], true, true, false, [9], true, []⟩
      { path := "t.flac", checkExist := false, verbose := false,
        lyricFile := false, curSize := 0, netSize := 9, encrypted := false,
        streamOk := true, excMsg := "", toolOk := true, toolErr := "",
        convertEligible := true,
        remux := ⟨[0, 0, 0, 24], true, true, false, [9], true, []⟩ }).2.2.1
      (by decide) rfl rfl rfl,
   (claim_C3_remux_nonfatal "t.flac"
      ⟨[0, 0, 0, 24], true, true, false, [9], true, []⟩
      { path := "t.flac", checkExist := false, verbose := false,
        lyricFile := false, curSize := 0, netSize := 9, encrypted := false,
        streamOk := true, excMsg := "", toolOk := true, toolErr := "",
        convertEligible := true,
        remux := ⟨[0, 0, 0, 24], true, true, false, [9], true, []⟩ }).2.2.2
      rfl (Or.inr rfl)⟩

/-! ### Claim C6: empty video manifest -/

/-- Claim C6: when the fetched manifest parses to an empty list of
segment URLs, `downloadVideo` fails fast with the manifest-empty error
`"GetTsUrls failed."` and produces no filesystem event at all — in
particular nothing is written under the final destination name. -/
theorem claim_C6_empty_manifest (c : VideoCtx) (h1 : c.streamOk = true)
    (h2 : c.m3u8Ok = true) (h3 : c.tsUrls = []) :
    downloadVideo c = ([], .pair false "GetTsUrls failed.") ∧
    ∀ e ∈ (downloadVideo c).1, e.writesTo c.path = false := by
  have hv : downloadVideo c = ([], .pair false "GetTsUrls failed.") := by
    unfold downloadVideo
    rw [h1, h2, h3]
    simp
  exact ⟨hv, by rw [hv]; intro e he; simp at he⟩

/-- Claim C6, witness: a concrete video context whose manifest has no
segment URLs. -/
theorem claim_C6_witness :
    downloadVideo ⟨"v.mp4", true, "", true, [], true, ""⟩ =
      ([], .pair false "GetTsUrls failed.") :=
  (claim_C6_empty_manifest ⟨"v.mp4", true, "", true, [], true, ""⟩
    rfl rfl rfl).1

/-! ### Claim C7: remux is a signature-gated no-op -/

/-- Claim C7: a file whose leading four bytes already carry the `fLaC`
signature makes the remux a no-op success — the bytes are unchanged and
the external transcoder is never invoked; and the remux decision is a
function of the file's bytes only, never of the file's name. -/
theorem claim_C7_signature_noop :
    (∀ (n : String) (c : RemuxCtx), c.readOk = true →
        c.fileBytes.take 4 = flacMagic →
        convertFlacInplace n c = ⟨true, c.fileBytes, false⟩) ∧
    (∀ (n₁ n₂ : String) (c : RemuxCtx),
        convertFlacInplace n₁ c = convertFlacInplace n₂ c) := by
  constructor
  · intro n c hr hm
    simp [convertFlacInplace, hr, hm]
  · intro n₁ n₂ c
    rfl

/-- Claim C7, witness: a concrete file starting with the `fLaC` bytes
is returned unchanged under two different names. -/
theorem claim_C7_witness :
    convertFlacInplace "a.flac"
        ⟨[0x66, 0x4C, 0x61, 0x43, 7], true, true, true, [9], true, []⟩ =
      ⟨true, [0x66, 0x4C, 0x61, 0x43, 7], false⟩ ∧
    convertFlacInplace "a.flac"
        ⟨[0x66, 0x4C, 0x61, 0x43, 7], true, true, true, [9], true, []⟩ =
      convertFlacInplace "b.m4a"
        ⟨[0x66, 0x4C, 0x61, 0x43, 7], true, true, true, [9], true, []⟩ :=
  ⟨claim_C7_signature_noop.1 "a.flac"
      ⟨[0x66, 0x4C, 0x61, 0x43, 7], true, true, true, [9], true, []⟩
      rfl (by decide),
   claim_C7_signature_noop.2 "a.flac" "b.m4a"
      ⟨[0x66, 0x4C, 0x61, 0x43, 7], true, true, true, [9], true, []⟩⟩

/-! ### Claim C9: shape of the per-item result -/

/-- Claim C9, counterexample: a successful video download returns the
bare boolean `True` (`return True` in the source), not a
`(success, message)` pair. -/
theorem claim_C9_counterexample :
    (downloadVideo ⟨"v.mp4", true, "", true, ["u"], true, ""⟩).2 = .single true ∧
    ((downloadVideo ⟨"v.mp4", true, "", true, ["u"], true, ""⟩).2).isPair = false := by
  decide

/-- Claim C9 (amended): every `downloadTrack` outcome is a
`(success, message)` pair, and every `downloadVideo` failure path
returns such a pair, but the success path of `downloadVideo` returns
the bare boolean `True`. -/
theorem claim_C9_result_shape :
    (∀ c : TrackCtx, ((downloadTrack c).2).isPair = true) ∧
    (∀ v : VideoCtx, ((downloadVideo v).2).isPair = true ∨
        (downloadVideo v).2 = .single true) ∧
    (∀ v : VideoCtx, v.streamOk = true → v.m3u8Ok = true →
        v.tsUrls ≠ [] → v.dlOk = true → (downloadVideo v).2 = .single true) := by
  refine ⟨?_, ?_, ?_⟩
  · intro c
    unfold downloadTrack
    cases hs : c.streamOk
    · simp [PyRet.isPair]
    · by_cases hsk : isSkip c.checkExist c.curSize c.netSize <;>
        cases ht : c.toolOk <;> simp [hsk, PyRet.isPair]
  · intro v
    unfold downloadVideo
    cases hs : v.streamOk
    · simp [PyRet.isPair]
    · cases hm : v.m3u8Ok
      · simp [PyRet.isPair]
      · by_cases hu : v.tsUrls.length = 0 <;> cases hd : v.dlOk <;>
          simp [hu, PyRet.isPair]
  · intro v hs hm hu hd
    unfold downloadVideo
    rw [hs, hm, hd]
    simp [List.length_eq_zero, hu]

/-- Claim C9, witness: the amended theorem at a concrete failed track
and a concrete successful video. -/
theorem claim_C9_witness :
    ((downloadTrack
        { path := "t.m4a", checkExist := false, verbose := false,
          lyricFile := false, curSize := 0, netSize := 9, encrypted := false,
          streamOk := false, excMsg := "boom", toolOk := true, toolErr := "",
          convertEligible := false,
          remux := ⟨[], true, true, true, [], true, []⟩ }).2).isPair = true ∧
    (downloadVideo ⟨"w.mp4", true, "", true, ["u"], true, ""⟩).2 = .single true :=
  ⟨claim_C9_result_shape.1
      { path := "t.m4a", checkExist := false, verbose := false,
        lyricFile := false, curSize := 0, netSize := 9, encrypted := false,
        streamOk := false, excMsg := "boom", toolOk := true, toolErr := "",
        convertEligible := false, remux := ⟨[], true, true, true, [], true, []⟩ },
   claim_C9_result_shape.2.2 ⟨"w.mp4", true, "", true, ["u"], true, ""⟩
      rfl rfl (by decide) rfl⟩

/-! ### Claim C4: album resolution across a batch -/

/-- Claim C4, counterexample: two tracks of the same album (album id 5)
in one batch with no caller-provided album cause two collaborator-API
`getAlbum` calls — the resolved album is not cached, so the claimed
"at most once per album per batch run" fails. -/
theorem claim_C4_counterexample :
    downloadTracksAlbumCalls none (fun _ => 5) [1, 2] = [5, 5] ∧
    (downloadTracksAlbumCalls none (fun _ => 5) [1, 2]).count 5 = 2 := by
  decide

/-- Claim C4 (amended): when the caller passes a shared album the
collaborator API is never called; when it does not, `downloadTracks`
calls `getAlbum` once per *track* — one call for every track whose
album is `a`, with no per-album deduplication — and, when covers are
saved outside a playlist folder, the cover download is likewise
triggered once per call, i.e. once per track. -/
theorem claim_C4_album_per_track (albumOf : Nat → Nat) (ts : List Nat) :
    (∀ x : Nat, downloadTracksAlbumCalls (some x) albumOf ts = []) ∧
    ((downloadTracksAlbumCalls none albumOf ts).length = ts.length) ∧
    (∀ a : Nat, (downloadTracksAlbumCalls none albumOf ts).count a =
        (ts.filter (fun t => albumOf t = a)).length) ∧
    (coverDownloads true false (downloadTracksAlbumCalls none albumOf ts) =
        downloadTracksAlbumCalls none albumOf ts) := by
  refine ⟨?_, ?_, ?_, ?_⟩
  · intro x
    induction ts with
    | nil => rfl
    | cons t ts ih => simpa [downloadTracksAlbumCalls] using ih
  · induction ts with
    | nil => rfl
    | cons t ts ih => simp [downloadTracksAlbumCalls, ih]
  · intro a
    induction ts with
    | nil => rfl
    | cons t ts ih =>
      by_cases h : albumOf t = a <;>
        simp [downloadTracksAlbumCalls, List.count_cons, h, ih]
  · simp [coverDownloads]

/-! ### Claim C5: batch completion and reporting -/

/-- Claim C5, counterexample: in a two-item batch where exactly one
item fails, both items are processed internally, but `downloadTracks`
returns `None` — the caller receives no per-item results at all, so the
batch does not report the failure and success counts. -/
theorem claim_C5_counterexample :
    (downloadTracksRun (fun t => if t = 1 then (false, "err") else (true, ""))
        [1, 2]).2 = none ∧
    countFailures
      (downloadTracksRun (fun t => if t = 1 then (false, "err") else (true, ""))
        [1, 2]).1 = 1 := by
  decide

/-- Claim C5 (amended): the batch loop processes all N items — no item
failure aborts the remaining items, because `downloadTrack` catches its
own exceptions and returns a pair — and the internally computed results
contain exactly K failures for K failing items; but those results are
discarded: `downloadTracks` returns `None`, reporting nothing to the
caller. -/
theorem claim_C5_batch (result : Nat → Bool × String) (ts : List Nat) :
    (processTracks result ts).length = ts.length ∧
    countFailures (processTracks result ts) =
      (ts.filter (fun t => (result t).1 = false)).length ∧
    (downloadTracksRun result ts).2 = none := by
  refine ⟨?_, ?_, rfl⟩
  · induction ts with
    | nil => rfl
    | cons t ts ih => simp [processTracks, ih]
  · induction ts with
    | nil => rfl
    | cons t ts ih =>
      by_cases h : (result t).1 = false <;>
        simp [processTracks, countFailures, List.filter, h, ih,
          countFailures] <;>
        simpa [countFailures] using ih

theorem dget_append (a b : Dict) (q : String) :
    dget (a ++ b) q =
      match dget a q with
      | some w => some w
      | none => dget b q := by
  induction a with
  | nil => rfl
  | cons kv d ih =>
    rcases kv with ⟨k, v⟩
    by_cases h : k = q <;> simp [dget, h, ih]

/-- Folding Python-dict insertion over entries whose renamed keys are
pairwise distinct and absent from the accumulator appends the renamed
entries in order. -/
theorem foldl_dinsert_fresh (l : Dict) : ∀ (acc : Dict),
    (∀ kk vv, (kk, vv) ∈ l → dget acc (legacyRename kk) = none) →
    ((l.map fun p => legacyRename p.1).Nodup) →
    l.foldl (fun a kv => dinsert a (legacyRename kv.1) kv.2) acc =
      acc ++ l.map (fun p => (legacyRename p.1, p.2)) := by
  induction l with
  | nil =>
    intro acc _ _
    simp
  | cons kv ts ih =>
    intro acc hfresh hnd
    rcases kv with ⟨k, v⟩
    have hins : dinsert acc (legacyRename k) v = acc ++ [(legacyRename k, v)] := by
      unfold dinsert
      rw [hfresh k v (List.mem_cons_self _ _)]
      simp
    have hfresh' : ∀ kk vv, (kk, vv) ∈ ts →
        dget (acc ++ [(legacyRename k, v)]) (legacyRename kk) = none := by
      intro kk vv hmem
      rw [dget_append, hfresh kk vv (List.mem_cons_of_mem _ hmem)]
      have hne : legacyRename kk ≠ legacyRename k := by
        have hkmem : legacyRename k ∉ ts.map (fun p => legacyRename p.1) :=
          (List.nodup_cons.mp hnd).1
        intro he
        refine hkmem ?_
        rw [← he]
        exact List.mem_map_of_mem _ hmem
      simp [dget, Ne.symm hne]
    have hnd' : (ts.map fun p => legacyRename p.1).Nodup :=
      (List.nodup_cons.mp hnd).2
    rw [List.foldl_cons, hins, ih (acc ++ [(legacyRename k, v)]) hfresh' hnd']
    simp

/-- On a dict whose keys are untouched by the rename table and pairwise
distinct, `normalized` is the identity. -/
theorem normalize_fresh (l : Dict)
    (hnd : (l.map fun p => legacyRename p.1).Nodup)
    (hren : ∀ kk vv, (kk, vv) ∈ l → legacyRename kk = kk) :
    normalize l = l := by
  unfold normalize
  rw [foldl_dinsert_fresh l [] (fun kk vv _ => rfl) hnd]
  rw [List.nil_append]
  have : l.map (fun p => (legacyRename p.1, p.2)) = l.map id := by
    refine List.map_congr_left ?_
    intro p hp
    rw [hren p.1 p.2 hp]
    rfl
  rw [this, List.map_id]

theorem audioQualityOfName_aqName (q : AudioQuality) :
    audioQualityOfName (aqName q) = q := by
  cases q <;> rfl

theorem videoQualityOfName_vqName (q : VideoQuality) :
    videoQualityOfName (vqName q) = q := by
  cases q <;> rfl

set_option maxHeartbeats 1000000 in
/-- Claim C10: `from_dict` is a left inverse of `to_dict` — the quality
enums are written as their names and restored by the name lookup, the
path formats are written as a nested dict and restored through
`PathFormats(**d)`; unknown keys are ignored; and legacy camelCase keys
are mapped through the rename table (including the legacy path-format
keys, which are extracted into the nested `path_formats`). -/
theorem claim_C10_roundtrip (s : Settings) (v : JVal) :
    Settings.fromDict (Settings.toDict s) = s ∧
    dget (Settings.toDict s) "audio_quality" =
      some (.str (aqName s.audio_quality)) ∧
    dget (Settings.toDict s) "path_formats" =
      some (.dict
        [("album_folder", .str s.path_formats.album_folder),
         ("playlist_folder", .str s.path_formats.playlist_folder),
         ("track_file", .str s.path_formats.track_file),
         ("video_file", .str s.path_formats.video_file)]) ∧
    Settings.fromDict (Settings.toDict s ++ [("unknown_key", v)]) = s ∧
    Settings.fromDict
      [("downloadPath", .str "/x"), ("audioQuality", .str "Master"),
       ("albumFolderFormat", .str "F")] =
      { download_path := "/x", audio_quality := .Master,
        path_formats := { album_folder := "F" } } := by
  have hq : settingsOfFields (Settings.toDict s) =
      { s with audio_quality := audioQualityOfName (aqName s.audio_quality),
               video_quality := videoQualityOfName (vqName s.video_quality) } := rfl
  rw [audioQualityOfName_aqName, videoQualityOfName_vqName] at hq
  have hfil : (Settings.toDict s).filter
      (fun kv => decide (kv.1 ∈ validFields)) = Settings.toDict s := rfl
  refine ⟨?_, rfl, rfl, ?_, ?_⟩
  · have hnorm : normalize (Settings.toDict s) = Settings.toDict s := by
      refine normalize_fresh _ ?_ ?_
      · have hmap : ((Settings.toDict s).map fun p => legacyRename p.1) =
            validFields := rfl
        rw [hmap]
        decide
      · intro kk vv hmem
        simp only [Settings.toDict, List.mem_cons, List.not_mem_nil, or_false,
          Prod.mk.injEq] at hmem
        rcases hmem with h | h | h | h | h | h | h | h | h | h | h | h | h |
          h | h | h | h | h | h <;> (rw [h.1]; rfl)
    have hex : extractPathFormats (Settings.toDict s) =
        ([], Settings.toDict s) := rfl
    unfold Settings.fromDict prunedDict
    rw [hnorm, hex]
    simp only [List.isEmpty_nil, if_true]
    rw [hfil, hq]
  · have hnorm : normalize (Settings.toDict s ++ [("unknown_key", v)]) =
        Settings.toDict s ++ [("unknown_key", v)] := by
      refine normalize_fresh _ ?_ ?_
      · have hmap : ((Settings.toDict s ++ [("unknown_key", v)]).map
            fun p => legacyRename p.1) = validFields ++ ["unknown_key"] := rfl
        rw [hmap]
        decide
      · intro kk vv hmem
        simp only [Settings.toDict, List.mem_append, List.mem_cons,
          List.not_mem_nil, or_false, Prod.mk.injEq] at hmem
        rcases hmem with (h | h | h | h | h | h | h | h | h | h | h | h | h |
          h | h | h | h | h | h) | h <;> (rw [h.1]; rfl)
    have hex : extractPathFormats (Settings.toDict s ++ [("unknown_key", v)]) =
        ([], Settings.toDict s ++ [("unknown_key", v)]) := rfl
    have hfil' : ((Settings.toDict s ++ [("unknown_key", v)]).filter
        (fun kv => decide (kv.1 ∈ validFields))) = Settings.toDict s := by
      rw [List.filter_append, hfil]
      rfl
    unfold Settings.fromDict prunedDict
    rw [hnorm, hex]
    simp only [List.isEmpty_nil, if_true]
    rw [hfil', hq]
  · rfl

end TidalDl
